import Mathlib

/-!
Verification of the chunked CSV processor (src/chunk_processor.py).

The embedding models, directly from the source:
  - a pandas DataFrame as a header (column names) plus a list of rows,
    each cell being an optional string (none = null/NaN);
  - `ChunkProcessor.apply_processing_funcs` as sequential application of
    transform functions, where a transform may raise (Except);
  - `ChunkProcessorCsv.read_chunks` as splitting the data rows of the
    input file into consecutive groups of `chunk_size` rows;
  - `chunk.to_csv(f_out, index=False, header=not header_written)` as the
    lines the write appends to the output file;
  - `ChunkProcessorCsv.process` as a fold of a per-chunk step over the
    chunk list, threading the run state (chunk_number, total_rows,
    total_nulls, header_written, the output file lines, the log).

Exceptions raised by the write call (pandas internals / IO) are modelled
by an environment oracle `writeFails : Nat → Bool` giving, per batch
number, whether the write raises; a failed write appends nothing.
Setup failure (input file missing or unparsable) is modelled by the
input being `none`, producing `Except.error` from `process`.
-/

namespace ChunkProc

/-- A cell of a pandas DataFrame: `none` models a null/NaN value. -/
abbrev Cell := Option String

/-- A row of a DataFrame: one cell per column. -/
abbrev Row := List Cell

/-- A pandas DataFrame chunk: column names plus data rows. -/
structure DataFrame where
  header : List String
  rows : List Row
deriving DecidableEq

/-- A processing function: takes a chunk, returns a chunk or raises. -/
abbrev Transform := DataFrame → Except String DataFrame

/-- How pandas renders a cell in to_csv: null cells become empty text. -/
def csvCell (c : Cell) : String := c.getD ""

/-- One CSV data line: the cells joined by commas. -/
def rowLine (r : Row) : String := String.intercalate "," (r.map csvCell)

/-- The CSV header line: the column names joined by commas. -/
def headerLine (h : List String) : String := String.intercalate "," h

/-- Number of null cells in one row (`isnull` per row). -/
def rowNulls (r : Row) : Nat := (r.filter fun c => c.isNone).length

/-- Number of rows of a chunk: `len(chunk)`. -/
def rowCount (df : DataFrame) : Nat := df.rows.length

/-- Number of null cells of a chunk: `chunk.isnull().sum().sum()`. -/
def nullCount (df : DataFrame) : Nat := (df.rows.map rowNulls).sum

/-- Embeds `ChunkProcessor.apply_processing_funcs`: the loop
`for func in self.processing_funcs: chunk = func(chunk)`, where an
exception raised by any function propagates out. -/
def apply_processing_funcs (funcs : List Transform) (chunk : DataFrame) :
    Except String DataFrame :=
  match funcs with
  | [] => .ok chunk
  | f :: rest =>
    match f chunk with
    | .ok c => apply_processing_funcs rest c
    | .error e => .error e

/-- Splits a list into consecutive groups of `C` elements, the way
`pd.read_csv(self.input_file, chunksize=self.chunk_size)` splits the
data rows of the file. Zero data rows give zero chunks. -/
def chunksOf (C : Nat) : List α → List (List α)
  | [] => []
  | a :: rest =>
    if C = 0 then []
    else (a :: rest).take C :: chunksOf C ((a :: rest).drop C)
termination_by l => l.length
decreasing_by
  rename_i hC
  simp only [List.length_drop, List.length_cons]
  omega

theorem chunksOf_nil (C : Nat) : chunksOf C ([] : List α) = [] := by
  rw [chunksOf]

theorem chunksOf_cons (C : Nat) (hC : C ≠ 0) (l : List α) (hl : l ≠ []) :
    chunksOf C l = l.take C :: chunksOf C (l.drop C) := by
  match l with
  | [] => exact absurd rfl hl
  | a :: rest =>
    rw [chunksOf]
    simp [hC]

/-- Embeds `ChunkProcessorCsv.read_chunks`: the input file is a header
plus data rows; the reader yields DataFrame chunks of `chunk_size` rows
in file order, each carrying the file column schema. -/
def read_chunks (hdr : List String) (rows : List Row) (C : Nat) :
    List DataFrame :=
  (chunksOf C rows).map (fun rs => DataFrame.mk hdr rs)

/-- A timestamped log event, as emitted through `self.logger`. -/
inductive LogEvent where
  | infoMsg (s : String)
  | chunkRead (i nrows : Nat)
  | chunkProcessed (i nrows nnulls : Nat)
  | chunkError (i : Nat) (msg : String)
deriving DecidableEq

/-- The mutable state threaded through `ChunkProcessorCsv.process`:
the counters, the header flag, the lines written so far to the output
file, and the log emitted so far. -/
structure RunState where
  chunk_number : Nat
  total_rows : Nat
  total_nulls : Nat
  header_written : Bool
  out : List String
  log : List LogEvent
deriving DecidableEq

/-- The lines `chunk.to_csv(f_out, index=False, header=writeHeader)`
appends to the output file: the header line when requested, then one
line per data row. -/
def to_csv_lines (df : DataFrame) (writeHeader : Bool) : List String :=
  (if writeHeader then [headerLine df.header] else []) ++ df.rows.map rowLine

/-- One iteration of the per-chunk loop of `ChunkProcessorCsv.process`.
The pair holds the chunk as read and whether the write call raises for
this batch (environment oracle). The try block: apply the transforms,
write the chunk, set the header flag, add the counts, log a summary;
on any exception, log an error and keep the rest of the state. -/
def processChunk (funcs : List Transform) (st : RunState)
    (cb : DataFrame × Bool) : RunState :=
  let n := st.chunk_number + 1
  let logRead := st.log ++ [LogEvent.chunkRead n cb.1.rows.length]
  match apply_processing_funcs funcs cb.1 with
  | .error e =>
    { st with chunk_number := n, log := logRead ++ [LogEvent.chunkError n e] }
  | .ok c =>
    if cb.2 then
      { st with chunk_number := n,
                log := logRead ++ [LogEvent.chunkError n "write failed"] }
    else
      { chunk_number := n
        total_rows := st.total_rows + rowCount c
        total_nulls := st.total_nulls + nullCount c
        header_written := true
        out := st.out ++ to_csv_lines c (!st.header_written)
        log := logRead ++ [LogEvent.chunkProcessed n (rowCount c) (nullCount c)] }

/-- The per-chunk loop: `for chunk in self.read_chunks(): ...`. -/
def runLoop (funcs : List Transform) (st : RunState) :
    List (DataFrame × Bool) → RunState
  | [] => st
  | cb :: rest => runLoop funcs (processChunk funcs st cb) rest

/-- Pairs chunk number `i, i+1, ...` with each chunk, recording for
each whether its write call raises. -/
def pairFlags (wf : Nat → Bool) (i : Nat) : List DataFrame →
    List (DataFrame × Bool)
  | [] => []
  | d :: rest => (d, wf i) :: pairFlags wf (i + 1) rest

/-- Models `open(self.output_file, 'w', ...)`: opening the output file
in write mode truncates whatever it held before. -/
def openTruncate (_prior : List String) : List String := []

/-- The log lines emitted before the loop: the start line of `process`
and the detected-encoding line of `detect_encoding`. -/
def initLog (enc : String) : List LogEvent :=
  [LogEvent.infoMsg "Iniciando processamento",
   LogEvent.infoMsg ("Encoding detectado: " ++ enc)]

/-- Embeds `ChunkProcessorCsv.process`. The input file is `none` when
it cannot be opened or parsed (setup failure, which propagates to the
caller); otherwise it is the header plus the data rows. `enc` is the
label returned by encoding detection, `wf` the per-batch write oracle,
`prior` the previous contents of the output file. -/
def process (funcs : List Transform) (C : Nat) (enc : String)
    (input : Option (List String × List Row)) (wf : Nat → Bool)
    (prior : List String) : Except String RunState :=
  match input with
  | none => .error "cannot open or parse input file"
  | some (hdr, rows) =>
    let st0 : RunState :=
      { chunk_number := 0
        total_rows := 0
        total_nulls := 0
        header_written := false
        out := openTruncate prior
        log := initLog enc }
    let st := runLoop funcs st0 (pairFlags wf 1 (read_chunks hdr rows C))
    .ok { st with log := st.log ++ [LogEvent.infoMsg "Processamento concluido"] }

/-- The output file contents a run produced (empty on setup failure). -/
def outputOf : Except String RunState → List String
  | .ok st => st.out
  | .error _ => []

/-- The chunks of a run that are successfully processed: the transforms
succeed and the write does not raise. Holds the transformed chunk, the
one that was written and counted. -/
def successDfs (funcs : List Transform) :
    List (DataFrame × Bool) → List DataFrame
  | [] => []
  | cb :: rest =>
    match apply_processing_funcs funcs cb.1 with
    | .error _ => successDfs funcs rest
    | .ok c => if cb.2 then successDfs funcs rest else c :: successDfs funcs rest

/-- Sum of the row counts of a list of chunks. -/
def sumRows (dfs : List DataFrame) : Nat := (dfs.map rowCount).sum

/-- Sum of the null-cell counts of a list of chunks. -/
def sumNulls (dfs : List DataFrame) : Nat := (dfs.map nullCount).sum

/-- The lines the writes of a run append, given the header flag at the
start and the successfully processed chunks in order. -/
def renderAll (hw : Bool) : List DataFrame → List String
  | [] => []
  | d :: rest => to_csv_lines d (!hw) ++ renderAll true rest

/-- The data lines (no header) of a list of chunks, in order. -/
def allDataLines : List DataFrame → List String
  | [] => []
  | d :: rest => d.rows.map rowLine ++ allDataLines rest

/-- The rows of a list of chunks, concatenated in order. -/
def allRows : List DataFrame → List Row
  | [] => []
  | d :: rest => d.rows ++ allRows rest

/-- Concatenation of a list of lists. -/
def catLists : List (List α) → List α
  | [] => []
  | l :: rest => l ++ catLists rest

/-- The outcome of applying the transform pipeline, as an option. -/
def transformOk (funcs : List Transform) (df : DataFrame) :
    Option DataFrame :=
  match apply_processing_funcs funcs df with
  | .ok c => some c
  | .error _ => none

/-- The log event the per-chunk loop emits for batch `i` after reading
it: a summary on success, an error on a transform or write failure. -/
def batchEvent (funcs : List Transform) (i : Nat) (cb : DataFrame × Bool) :
    LogEvent :=
  match apply_processing_funcs funcs cb.1 with
  | .error e => .chunkError i e
  | .ok c =>
    if cb.2 then .chunkError i "write failed"
    else .chunkProcessed i (rowCount c) (nullCount c)

/-- The log events the loop emits for the batches, numbered from `i`. -/
def batchEvents (funcs : List Transform) (i : Nat) :
    List (DataFrame × Bool) → List LogEvent
  | [] => []
  | cb :: rest =>
    LogEvent.chunkRead i cb.1.rows.length :: batchEvent funcs i cb ::
      batchEvents funcs (i + 1) rest

/-- Number of error events in a log. -/
def countErrors : List LogEvent → Nat
  | [] => 0
  | e :: rest =>
    (match e with | LogEvent.chunkError _ _ => 1 | _ => 0) + countErrors rest

theorem processChunk_error (funcs : List Transform) (st : RunState)
    (d : DataFrame) (b : Bool) (e : String)
    (h : apply_processing_funcs funcs d = .error e) :
    processChunk funcs st (d, b) =
      { st with
        chunk_number := st.chunk_number + 1
        log := st.log ++
          [LogEvent.chunkRead (st.chunk_number + 1) d.rows.length,
           LogEvent.chunkError (st.chunk_number + 1) e] } := by
  simp [processChunk, h]

theorem processChunk_writeFail (funcs : List Transform) (st : RunState)
    (d c : DataFrame) (h : apply_processing_funcs funcs d = .ok c) :
    processChunk funcs st (d, true) =
      { st with
        chunk_number := st.chunk_number + 1
        log := st.log ++
          [LogEvent.chunkRead (st.chunk_number + 1) d.rows.length,
           LogEvent.chunkError (st.chunk_number + 1) "write failed"] } := by
  simp [processChunk, h]

theorem processChunk_ok (funcs : List Transform) (st : RunState)
    (d c : DataFrame) (h : apply_processing_funcs funcs d = .ok c) :
    processChunk funcs st (d, false) =
      { chunk_number := st.chunk_number + 1
        total_rows := st.total_rows + rowCount c
        total_nulls := st.total_nulls + nullCount c
        header_written := true
        out := st.out ++ to_csv_lines c (!st.header_written)
        log := st.log ++
          [LogEvent.chunkRead (st.chunk_number + 1) d.rows.length,
           LogEvent.chunkProcessed (st.chunk_number + 1) (rowCount c)
             (nullCount c)] } := by
  simp [processChunk, h]

/-- Characterization of the whole per-chunk loop: final counter values,
header flag, output lines and log, as functions of the successfully
processed chunks. -/
theorem runLoop_spec (funcs : List Transform) :
    ∀ (l : List (DataFrame × Bool)) (st : RunState),
      (runLoop funcs st l).chunk_number = st.chunk_number + l.length
      ∧ (runLoop funcs st l).total_rows =
          st.total_rows + sumRows (successDfs funcs l)
      ∧ (runLoop funcs st l).total_nulls =
          st.total_nulls + sumNulls (successDfs funcs l)
      ∧ (runLoop funcs st l).header_written =
          (st.header_written || !(successDfs funcs l).isEmpty)
      ∧ (runLoop funcs st l).out =
          st.out ++ renderAll st.header_written (successDfs funcs l)
      ∧ (runLoop funcs st l).log =
          st.log ++ batchEvents funcs (st.chunk_number + 1) l := by
  intro l
  induction l with
  | nil =>
    intro st
    simp [runLoop, successDfs, sumRows, sumNulls, renderAll, batchEvents]
  | cons cb rest ih =>
    obtain ⟨d, b⟩ := cb
    intro st
    simp only [runLoop]
    cases h : apply_processing_funcs funcs d with
    | error e =>
      rw [processChunk_error funcs st d b e h]
      refine ⟨?_, ?_, ?_, ?_, ?_, ?_⟩ <;>
          simp [ih, successDfs, h, batchEvents, batchEvent,
            List.append_assoc] <;>
        omega
    | ok c =>
      cases b with
      | true =>
        rw [processChunk_writeFail funcs st d c h]
        refine ⟨?_, ?_, ?_, ?_, ?_, ?_⟩ <;>
            simp [ih, successDfs, h, batchEvents, batchEvent,
              List.append_assoc] <;>
          omega
      | false =>
        rw [processChunk_ok funcs st d c h]
        refine ⟨?_, ?_, ?_, ?_, ?_, ?_⟩ <;>
            simp [ih, successDfs, h, batchEvents, batchEvent,
              sumRows, sumNulls, renderAll, List.append_assoc] <;>
          omega

theorem pairFlags_length (wf : Nat → Bool) :
    ∀ (i : Nat) (l : List DataFrame), (pairFlags wf i l).length = l.length := by
  intro i l
  induction l generalizing i with
  | nil => rfl
  | cons d rest ih => simp [pairFlags, ih]

/-- Characterization of a whole run on a readable input file. -/
theorem process_some_spec (funcs : List Transform) (C : Nat) (enc : String)
    (hdr : List String) (rows : List Row) (wf : Nat → Bool)
    (prior : List String) :
    ∃ st : RunState,
      process funcs C enc (some (hdr, rows)) wf prior = .ok st
      ∧ st.chunk_number = (read_chunks hdr rows C).length
      ∧ st.total_rows =
          sumRows (successDfs funcs (pairFlags wf 1 (read_chunks hdr rows C)))
      ∧ st.total_nulls =
          sumNulls (successDfs funcs (pairFlags wf 1 (read_chunks hdr rows C)))
      ∧ st.header_written =
          !(successDfs funcs (pairFlags wf 1 (read_chunks hdr rows C))).isEmpty
      ∧ st.out =
          renderAll false (successDfs funcs (pairFlags wf 1 (read_chunks hdr rows C)))
      ∧ st.log =
          initLog enc ++ batchEvents funcs 1 (pairFlags wf 1 (read_chunks hdr rows C))
            ++ [LogEvent.infoMsg "Processamento concluido"] := by
  obtain ⟨h1, h2, h3, h4, h5, h6⟩ :=
    runLoop_spec funcs (pairFlags wf 1 (read_chunks hdr rows C))
      { chunk_number := 0
        total_rows := 0
        total_nulls := 0
        header_written := false
        out := openTruncate prior
        log := initLog enc }
  simp only [openTruncate] at h1 h2 h3 h4 h5 h6
  refine ⟨_, rfl, ?_, ?_, ?_, ?_, ?_, ?_⟩ <;>
    simp [process, h1, h2, h3, h4, h5, h6, openTruncate, pairFlags_length,
      List.append_assoc]

theorem renderAll_true :
    ∀ dfs : List DataFrame, renderAll true dfs = allDataLines dfs := by
  intro dfs
  induction dfs with
  | nil => rfl
  | cons d rest ih => simp [renderAll, allDataLines, to_csv_lines, ih]

theorem renderAll_false_cons (d : DataFrame) (ds : List DataFrame) :
    renderAll false (d :: ds) =
      headerLine d.header :: (d.rows.map rowLine ++ allDataLines ds) := by
  simp [renderAll, to_csv_lines, renderAll_true]

theorem batchEvents_get (funcs : List Transform) :
    ∀ (l : List (DataFrame × Bool)) (i n : Nat) (cb : DataFrame × Bool),
      l.get? n = some cb →
      batchEvent funcs (i + n) cb ∈ batchEvents funcs i l := by
  intro l
  induction l with
  | nil => intro i n cb h; simp at h
  | cons x rest ih =>
    intro i n cb h
    cases n with
    | zero =>
      simp at h
      subst h
      simp [batchEvents]
    | succ n =>
      have h' : rest.get? n = some cb := h
      have e : i + (n + 1) = (i + 1) + n := by omega
      rw [e]
      exact List.mem_cons_of_mem _ (List.mem_cons_of_mem _ (ih (i + 1) n cb h'))

theorem countErrors_append :
    ∀ l1 l2 : List LogEvent,
      countErrors (l1 ++ l2) = countErrors l1 + countErrors l2 := by
  intro l1 l2
  induction l1 with
  | nil => simp [countErrors]
  | cons e rest ih => simp [countErrors, ih]; omega

theorem countErrors_batchEvents_allFail (funcs : List Transform)
    (hfail : ∀ df, ∃ e, apply_processing_funcs funcs df = .error e) :
    ∀ (l : List (DataFrame × Bool)) (i : Nat),
      countErrors (batchEvents funcs i l) = l.length := by
  intro l
  induction l with
  | nil => intro i; rfl
  | cons cb rest ih =>
    intro i
    obtain ⟨e, he⟩ := hfail cb.1
    simp [batchEvents, countErrors, batchEvent, he, ih]
    omega

theorem catLists_map_read (hdr : List String) :
    ∀ ls : List (List Row),
      allRows (ls.map (fun rs => DataFrame.mk hdr rs)) = catLists ls := by
  intro ls
  induction ls with
  | nil => rfl
  | cons l rest ih => simp [allRows, catLists, ih]

theorem chunksOf_cat (C : Nat) (hC : C ≠ 0) :
    ∀ (n : Nat) (l : List α), l.length ≤ n → catLists (chunksOf C l) = l := by
  intro n
  induction n with
  | zero =>
    intro l h
    have hl : l = [] := List.length_eq_zero.mp (Nat.le_zero.mp h)
    subst hl
    rw [chunksOf_nil]
    rfl
  | succ n ih =>
    intro l h
    rcases eq_or_ne l [] with hl | hl
    · subst hl
      rw [chunksOf_nil]
      rfl
    · rw [chunksOf_cons C hC l hl]
      have hlen : 0 < l.length := List.length_pos.mpr hl
      have : (l.drop C).length ≤ n := by
        simp only [List.length_drop]
        omega
      simp only [catLists, ih (l.drop C) this]
      exact List.take_append_drop C l

theorem chunksOf_length (C : Nat) (hC : C ≠ 0) :
    ∀ (n : Nat) (l : List α),
      l.length ≤ n → (chunksOf C l).length = (l.length + C - 1) / C := by
  intro n
  induction n with
  | zero =>
    intro l h
    have hl : l = [] := List.length_eq_zero.mp (Nat.le_zero.mp h)
    subst hl
    rw [chunksOf_nil]
    simp only [List.length_nil, Nat.zero_add]
    exact (Nat.div_eq_of_lt (by omega)).symm
  | succ n ih =>
    intro l h
    rcases eq_or_ne l [] with hl | hl
    · subst hl
      rw [chunksOf_nil]
      simp only [List.length_nil, Nat.zero_add]
      exact (Nat.div_eq_of_lt (by omega)).symm
    · rw [chunksOf_cons C hC l hl]
      have hlen : 0 < l.length := List.length_pos.mpr hl
      have hd : (l.drop C).length ≤ n := by
        simp only [List.length_drop]
        omega
      rw [List.length_cons, ih (l.drop C) hd]
      simp only [List.length_drop]
      rcases Nat.lt_or_ge C l.length with hlt | hge
      · have e1 : l.length - C + C - 1 = l.length - 1 := by omega
        have e2 : l.length + C - 1 = (l.length - 1) + C := by omega
        rw [e1, e2, Nat.add_div_right _ (by omega)]
      · have e1 : l.length - C = 0 := by omega
        have r1 : (0 + C - 1) / C = 0 := Nat.div_eq_of_lt (by omega)
        have r2 : (l.length + C - 1) / C = 1 := by
          apply Nat.div_eq_of_lt_le (by omega)
          omega
        rw [e1, r1, r2]

theorem chunksOf_last (C : Nat) (hC : C ≠ 0) :
    ∀ (n : Nat) (l : List α), l.length ≤ n → l ≠ [] →
      ∃ (front : List (List α)) (lastC : List α),
        chunksOf C l = front ++ [lastC]
        ∧ (∀ b ∈ front, b.length = C)
        ∧ lastC.length = (if l.length % C = 0 then C else l.length % C) := by
  intro n
  induction n with
  | zero =>
    intro l h hl
    exact absurd (List.length_eq_zero.mp (Nat.le_zero.mp h)) hl
  | succ n ih =>
    intro l h hl
    have hlen : 0 < l.length := List.length_pos.mpr hl
    rcases eq_or_ne (l.drop C) [] with hd | hd
    · have hle : l.length ≤ C := by
        have := congrArg List.length hd
        simp only [List.length_drop, List.length_nil] at this
        omega
      refine ⟨[], l, ?_, by simp, ?_⟩
      · rw [chunksOf_cons C hC l hl, hd, chunksOf_nil,
          List.take_of_length_le hle]
        rfl
      · rcases Nat.lt_or_ge l.length C with hlt | hge
        · have hm : l.length % C = l.length := Nat.mod_eq_of_lt hlt
          have h0 : ¬ l.length % C = 0 := by rw [hm]; omega
          rw [if_neg h0, hm]
        · have he : l.length = C := by omega
          simp [he, Nat.mod_self]
    · have hCl : C < l.length := by
        have := List.length_pos.mpr hd
        simp only [List.length_drop] at this
        omega
      have hdn : (l.drop C).length ≤ n := by
        simp only [List.length_drop]
        omega
      obtain ⟨front, lastC, heq, hfront, hlast⟩ := ih (l.drop C) hdn hd
      refine ⟨l.take C :: front, lastC, ?_, ?_, ?_⟩
      · rw [chunksOf_cons C hC l hl, heq]
        rfl
      · intro b hb
        rcases List.mem_cons.mp hb with hb | hb
        · subst hb
          simp [List.length_take]
          omega
        · exact hfront b hb
      · have e2 : l.length % C = (l.length - C) % C := by
          conv_lhs => rw [show l.length = (l.length - C) + C by omega]
          rw [Nat.add_mod_right]
        rw [hlast]
        simp only [List.length_drop]
        rw [e2]

/-- A transform function that raises on every chunk. -/
def alwaysFail : Transform := fun _ => .error "boom"

/-- A transform function that drops every row of the chunk. -/
def dropRows : Transform := fun d => .ok (DataFrame.mk d.header [])

/-- A transform function that raises exactly on chunks holding a null
cell. -/
def failOnNull : Transform := fun d =>
  if nullCount d = 0 then .ok d else .error "null found"

theorem chunksOf_one_one (r : α) : chunksOf 1 [r] = [[r]] := by
  rw [chunksOf_cons 1 one_ne_zero [r] (by simp)]
  simp [chunksOf_nil]

theorem chunksOf_one_two (r s : α) : chunksOf 1 [r, s] = [[r], [s]] := by
  rw [chunksOf_cons 1 one_ne_zero [r, s] (by simp)]
  simp [chunksOf_one_one]

theorem successDfs_allFail (funcs : List Transform)
    (hfail : ∀ df, ∃ e, apply_processing_funcs funcs df = .error e) :
    ∀ l : List (DataFrame × Bool), successDfs funcs l = [] := by
  intro l
  induction l with
  | nil => rfl
  | cons cb rest ih =>
    obtain ⟨e, he⟩ := hfail cb.1
    simp [successDfs, he, ih]

theorem successDfs_ne_nil_attempt (funcs : List Transform) :
    ∀ l : List (DataFrame × Bool), successDfs funcs l ≠ [] →
      ∃ cb ∈ l, (transformOk funcs cb.1).isSome := by
  intro l
  induction l with
  | nil => intro h; exact absurd rfl h
  | cons cb rest ih =>
    intro h
    cases happ : apply_processing_funcs funcs cb.1 with
    | error e =>
      have h' : successDfs funcs rest ≠ [] := by
        simpa [successDfs, happ] using h
      obtain ⟨cb', hmem, hok⟩ := ih h'
      exact ⟨cb', List.mem_cons_of_mem _ hmem, hok⟩
    | ok c =>
      refine ⟨cb, List.mem_cons_self _ _, ?_⟩
      simp [transformOk, happ]

/-- Claim C7: `apply_processing_funcs` applies the configured transform
functions in order, feeding each output to the next function; with an
empty transform list it is the identity on chunks. For pure (never
raising) transforms the result is the nested application of the
functions in configured order. -/
theorem c7_pipeline_order :
    (∀ df : DataFrame, apply_processing_funcs [] df = .ok df)
    ∧ (∀ (f : Transform) (fs : List Transform) (df : DataFrame),
        apply_processing_funcs (f :: fs) df =
          match f df with
          | .ok c => apply_processing_funcs fs c
          | .error e => .error e)
    ∧ (∀ (gs : List (DataFrame → DataFrame)) (df : DataFrame),
        apply_processing_funcs (gs.map (fun g d => Except.ok (g d))) df =
          .ok (gs.foldl (fun d g => g d) df)) := by
  refine ⟨fun df => rfl, fun f fs df => rfl, ?_⟩
  intro gs
  induction gs with
  | nil => intro df; rfl
  | cons g rest ih => intro df; simp [apply_processing_funcs, ih]

/-- Claim C8: a run on a readable input is a deterministic function of
the configuration, input contents, detected encoding and write oracle,
and its result does not depend on the previous contents of the output
file, because the output is opened in truncating write mode; hence two
identical runs produce byte-identical output files. -/
theorem c8_idempotent_truncate (funcs : List Transform) (C : Nat)
    (enc : String) (input : Option (List String × List Row))
    (wf : Nat → Bool) (prior1 prior2 : List String) :
    process funcs C enc input wf prior1 =
      process funcs C enc input wf prior2 := by
  cases input with
  | none => rfl
  | some p =>
    obtain ⟨hdr, rows⟩ := p
    rfl

/-- Claim C9: for a successfully processed batch, the row count and the
null count added to the running totals are those of the batch after all
transforms were applied, not of the batch as read. -/
theorem c9_counts_after_transform (funcs : List Transform) (st : RunState)
    (df c : DataFrame) (h : apply_processing_funcs funcs df = .ok c) :
    (processChunk funcs st (df, false)).total_rows =
      st.total_rows + rowCount c
    ∧ (processChunk funcs st (df, false)).total_nulls =
      st.total_nulls + nullCount c := by
  rw [processChunk_ok funcs st df c h]
  exact ⟨rfl, rfl⟩

/-- Claim C9 witness: a transform that drops all rows makes the batch
contribute the transformed row count (zero), not the count as read. -/
theorem c9_witness :
    apply_processing_funcs [dropRows] (DataFrame.mk ["a"] [[some "1"]]) =
      .ok (DataFrame.mk ["a"] [])
    ∧ (processChunk [dropRows]
        { chunk_number := 0, total_rows := 0, total_nulls := 0,
          header_written := false, out := [], log := [] }
        (DataFrame.mk ["a"] [[some "1"]], false)).total_rows =
      0 + rowCount (DataFrame.mk ["a"] []) := by
  have h : apply_processing_funcs [dropRows] (DataFrame.mk ["a"] [[some "1"]]) =
      .ok (DataFrame.mk ["a"] []) := rfl
  exact ⟨h, (c9_counts_after_transform [dropRows] _ _ _ h).1⟩

/-- Claim C3: the two counters never decrease across the per-batch
loop, and at the end of a run they equal the sums of the per-batch row
and null counts over exactly the successfully processed batches. -/
theorem c3_totals_monotone_exact (funcs : List Transform) :
    (∀ (st : RunState) (l : List (DataFrame × Bool)),
        st.total_rows ≤ (runLoop funcs st l).total_rows
        ∧ st.total_nulls ≤ (runLoop funcs st l).total_nulls)
    ∧ (∀ (C : Nat) (enc : String) (hdr : List String) (rows : List Row)
        (wf : Nat → Bool) (prior : List String),
        ∃ st : RunState,
          process funcs C enc (some (hdr, rows)) wf prior = .ok st
          ∧ st.total_rows =
              sumRows (successDfs funcs (pairFlags wf 1 (read_chunks hdr rows C)))
          ∧ st.total_nulls =
              sumNulls (successDfs funcs (pairFlags wf 1 (read_chunks hdr rows C)))) := by
  constructor
  · intro st l
    obtain ⟨-, h2, h3, -, -, -⟩ := runLoop_spec funcs l st
    omega
  · intro C enc hdr rows wf prior
    obtain ⟨st, hok, -, hrows, hnulls, -, -, -⟩ :=
      process_some_spec funcs C enc hdr rows wf prior
    exact ⟨st, hok, hrows, hnulls⟩

/-- Claim C6: for an input with R data rows and positive chunk size C,
the reader yields ceil(R / C) chunks; all chunks before the last hold
exactly C rows, the last holds R mod C rows (C when R mod C = 0), and
concatenating the chunks in order gives back exactly the input rows,
so no row is skipped, duplicated or reordered. -/
theorem c6_reader_partition (hdr : List String) (rows : List Row)
    (C : Nat) (hC : 0 < C) :
    (read_chunks hdr rows C).length = (rows.length + C - 1) / C
    ∧ allRows (read_chunks hdr rows C) = rows
    ∧ (rows ≠ [] →
        ∃ (front : List DataFrame) (lastDf : DataFrame),
          read_chunks hdr rows C = front ++ [lastDf]
          ∧ (∀ d ∈ front, d.rows.length = C)
          ∧ lastDf.rows.length =
              (if rows.length % C = 0 then C else rows.length % C)) := by
  have hC' : C ≠ 0 := by omega
  refine ⟨?_, ?_, ?_⟩
  · rw [read_chunks, List.length_map]
    exact chunksOf_length C hC' rows.length rows (le_refl _)
  · rw [read_chunks, catLists_map_read]
    exact chunksOf_cat C hC' rows.length rows (le_refl _)
  · intro hne
    obtain ⟨front, lastC, heq, hfront, hlast⟩ :=
      chunksOf_last C hC' rows.length rows (le_refl _) hne
    refine ⟨front.map (fun rs => DataFrame.mk hdr rs), DataFrame.mk hdr lastC,
      ?_, ?_, hlast⟩
    · rw [read_chunks, heq, List.map_append]
      rfl
    · intro d hd
      rcases List.mem_map.mp hd with ⟨b, hb, rfl⟩
      exact hfront b hb

/-- Claim C6 witness: 3 rows with chunk size 2 give 2 chunks and the
concatenation of the chunks is the input row list. -/
theorem c6_witness :
    (read_chunks ["a"] [[some "1"], [some "2"], [some "3"]] 2).length = 2
    ∧ allRows (read_chunks ["a"] [[some "1"], [some "2"], [some "3"]] 2) =
        [[some "1"], [some "2"], [some "3"]] := by
  obtain ⟨h1, h2, -⟩ :=
    c6_reader_partition ["a"] [[some "1"], [some "2"], [some "3"]] 2
      (by decide)
  refine ⟨?_, h2⟩
  rw [h1]
  rfl

/-- Claim C5 (amended): for an input with a header row and zero data
rows the reader yields zero batches and the run ends with zero total
rows and an empty output file; no header is written, because the
header is only emitted together with the first written batch. -/
theorem c5_empty_input (funcs : List Transform) (C : Nat) (enc : String)
    (hdr : List String) (wf : Nat → Bool) (prior : List String) :
    read_chunks hdr [] C = []
    ∧ ∃ st : RunState,
        process funcs C enc (some (hdr, [])) wf prior = .ok st
        ∧ st.chunk_number = 0
        ∧ st.total_rows = 0
        ∧ st.out = [] := by
  have hrc : read_chunks hdr [] C = [] := by
    rw [read_chunks, chunksOf_nil]
    rfl
  refine ⟨hrc, ?_⟩
  obtain ⟨st, hok, hnum, hrows, -, -, hout, -⟩ :=
    process_some_spec funcs C enc hdr [] wf prior
  rw [hrc] at hnum hrows hout
  exact ⟨st, hok, hnum, hrows, hout⟩

/-- Claim C5 counterexample: on a header-only input the output file of
the run is empty, not the single header line the claim promises. -/
theorem c5_counterexample :
    outputOf (process [] 1000 "utf-8" (some (["a", "b"], []))
        (fun _ => false) []) = []
    ∧ outputOf (process [] 1000 "utf-8" (some (["a", "b"], []))
        (fun _ => false) []) ≠ [headerLine ["a", "b"]] := by
  have h : outputOf (process [] 1000 "utf-8" (some (["a", "b"], []))
      (fun _ => false) []) = [] := by
    simp [process, read_chunks, chunksOf_nil, pairFlags, runLoop,
      outputOf, openTruncate]
  refine ⟨h, ?_⟩
  rw [h]
  simp

/-- Claim C1: per-batch failures (transform or write) are isolated: the
run always returns normally for a readable input, every batch is
visited, failed batches contribute nothing to the totals or the output
file, an error event naming the batch number is logged for each failed
batch, and only setup failures (unreadable input) propagate out of the
run call. -/
theorem c1_per_batch_errors_isolated (funcs : List Transform) (C : Nat)
    (enc : String) (hdr : List String) (rows : List Row) (wf : Nat → Bool)
    (prior : List String) :
    (∃ st : RunState,
      process funcs C enc (some (hdr, rows)) wf prior = .ok st
      ∧ st.chunk_number = (read_chunks hdr rows C).length
      ∧ st.total_rows =
          sumRows (successDfs funcs (pairFlags wf 1 (read_chunks hdr rows C)))
      ∧ st.total_nulls =
          sumNulls (successDfs funcs (pairFlags wf 1 (read_chunks hdr rows C)))
      ∧ st.out =
          renderAll false (successDfs funcs (pairFlags wf 1 (read_chunks hdr rows C)))
      ∧ (∀ (n : Nat) (cb : DataFrame × Bool),
          (pairFlags wf 1 (read_chunks hdr rows C)).get? n = some cb →
          (transformOk funcs cb.1 = none ∨ cb.2 = true) →
          ∃ e, LogEvent.chunkError (n + 1) e ∈ st.log))
    ∧ (∃ msg, process funcs C enc none wf prior = .error msg) := by
  refine ⟨?_, ⟨_, rfl⟩⟩
  obtain ⟨st, hok, hnum, hrows, hnulls, -, hout, hlog⟩ :=
    process_some_spec funcs C enc hdr rows wf prior
  refine ⟨st, hok, hnum, hrows, hnulls, hout, ?_⟩
  intro n cb hget hfailed
  have hm := batchEvents_get funcs _ 1 n cb hget
  have hinlog :
      ∀ ev, ev ∈ batchEvents funcs 1 (pairFlags wf 1 (read_chunks hdr rows C)) →
        ev ∈ st.log := by
    intro ev hev
    rw [hlog]
    exact List.mem_append.mpr (Or.inl (List.mem_append.mpr (Or.inr hev)))
  cases hfail : apply_processing_funcs funcs cb.1 with
  | error e =>
    refine ⟨e, hinlog _ ?_⟩
    have heq : batchEvent funcs (1 + n) cb = LogEvent.chunkError (n + 1) e := by
      simp [batchEvent, hfail, Nat.add_comm]
    rw [← heq]
    exact hm
  | ok c =>
    rcases hfailed with hnone | htrue
    · rw [transformOk, hfail] at hnone
      exact absurd hnone (by simp)
    · refine ⟨"write failed", hinlog _ ?_⟩
      have heq : batchEvent funcs (1 + n) cb =
          LogEvent.chunkError (n + 1) "write failed" := by
        simp [batchEvent, hfail, htrue, Nat.add_comm]
      rw [← heq]
      exact hm

/-- Claim C1 witness: a run whose single batch always fails returns
normally with an error logged for batch 1 and empty totals. -/
theorem c1_witness :
    ∃ st : RunState,
      process [alwaysFail] 1 "utf-8" (some (["a"], [[some "1"]]))
        (fun _ => false) [] = .ok st
      ∧ st.total_rows = sumRows (successDfs [alwaysFail]
          (pairFlags (fun _ => false) 1 (read_chunks ["a"] [[some "1"]] 1))) := by
  obtain ⟨⟨st, hok, -, hrows, -⟩, -⟩ :=
    c1_per_batch_errors_isolated [alwaysFail] 1 "utf-8" ["a"] [[some "1"]]
      (fun _ => false) []
  exact ⟨st, hok, hrows⟩

/-- Claim C2 (amended): the output file of a run holds at most one
header line: it is empty when no batch is successfully written, and
otherwise its first line is the single header line, written with the
first successful batch and followed only by data lines; and once the
header-written flag is true it stays true for the rest of the loop.
The original claim fails when no batch succeeds: then the file has no
header line at all. -/
theorem c2_header_at_most_once (funcs : List Transform) (C : Nat)
    (enc : String) (hdr : List String) (rows : List Row) (wf : Nat → Bool)
    (prior : List String) :
    (∃ st : RunState,
      process funcs C enc (some (hdr, rows)) wf prior = .ok st
      ∧ (successDfs funcs (pairFlags wf 1 (read_chunks hdr rows C)) = [] →
          st.out = [])
      ∧ (∀ (d : DataFrame) (ds : List DataFrame),
          successDfs funcs (pairFlags wf 1 (read_chunks hdr rows C)) = d :: ds →
          st.out = headerLine d.header :: (d.rows.map rowLine ++ allDataLines ds)))
    ∧ (∀ (st' : RunState) (l : List (DataFrame × Bool)),
        st'.header_written = true → (runLoop funcs st' l).header_written = true) := by
  constructor
  · obtain ⟨st, hok, -, -, -, -, hout, -⟩ :=
      process_some_spec funcs C enc hdr rows wf prior
    refine ⟨st, hok, ?_, ?_⟩
    · intro h
      rw [hout, h]
      rfl
    · intro d ds h
      rw [hout, h, renderAll_false_cons]
  · intro st' l h
    obtain ⟨-, -, -, h4, -, -⟩ := runLoop_spec funcs l st'
    rw [h4, h]
    rfl

/-- Claim C2 witness: a run with one successful batch produces exactly
the header line followed by the data lines of that batch. -/
theorem c2_witness :
    ∃ st : RunState,
      process [] 1 "utf-8" (some (["a"], [[some "1"]])) (fun _ => false) [] =
        .ok st
      ∧ st.out = headerLine ["a"] ::
          ([[(some "1" : Cell)]].map rowLine ++ allDataLines []) := by
  obtain ⟨⟨st, hok, -, hcons⟩, -⟩ :=
    c2_header_at_most_once [] 1 "utf-8" ["a"] [[some "1"]] (fun _ => false) []
  refine ⟨st, hok, hcons (DataFrame.mk ["a"] [[some "1"]]) [] ?_⟩
  rw [read_chunks, chunksOf_one_one]
  rfl

/-- Claim C2 counterexample: a run with a single batch whose transform
raises leaves an output file holding no header line at all, refuting
that every run output holds exactly one header line. -/
theorem c2_counterexample :
    (outputOf (process [alwaysFail] 1 "utf-8" (some (["c"], [[some "5"]]))
        (fun _ => false) [])).count (headerLine ["c"]) = 0 := by
  have h : chunksOf 1 [[(some "5" : Cell)]] = [[[some "5"]]] :=
    chunksOf_one_one _
  simp [process, read_chunks, h, pairFlags, runLoop, processChunk,
    apply_processing_funcs, alwaysFail, outputOf, openTruncate]

/-- Claim C4 (amended): when the transform pipeline raises on every
chunk the run still returns normally, logs exactly one error event per
batch, visits every batch, and ends with zero total rows and an empty
output file. The original claim fails on the output file: it is empty,
with no header line, because the header is only written by a
successful write. -/
theorem c4_always_failing_transform (funcs : List Transform) (C : Nat)
    (enc : String) (hdr : List String) (rows : List Row) (wf : Nat → Bool)
    (prior : List String)
    (hfail : ∀ df, ∃ e, apply_processing_funcs funcs df = .error e) :
    ∃ st : RunState,
      process funcs C enc (some (hdr, rows)) wf prior = .ok st
      ∧ st.total_rows = 0
      ∧ st.out = []
      ∧ countErrors st.log = (read_chunks hdr rows C).length
      ∧ st.chunk_number = (read_chunks hdr rows C).length := by
  obtain ⟨st, hok, hnum, hrows, -, -, hout, hlog⟩ :=
    process_some_spec funcs C enc hdr rows wf prior
  have hsd := successDfs_allFail funcs hfail
    (pairFlags wf 1 (read_chunks hdr rows C))
  refine ⟨st, hok, ?_, ?_, ?_, hnum⟩
  · rw [hrows, hsd]
    rfl
  · rw [hout, hsd]
    rfl
  · rw [hlog, countErrors_append, countErrors_append,
      countErrors_batchEvents_allFail funcs hfail _ 1, pairFlags_length]
    simp [initLog, countErrors]

/-- Claim C4 witness: a concrete run with two batches and an always
raising transform returns normally with zero rows, an empty output
file and two logged errors. -/
theorem c4_witness :
    ∃ st : RunState,
      process [alwaysFail] 1 "utf-8" (some (["a"], [[some "1"], [none]]))
        (fun _ => false) [] = .ok st
      ∧ st.total_rows = 0
      ∧ st.out = [] := by
  obtain ⟨st, hok, hrows, hout, -, -⟩ :=
    c4_always_failing_transform [alwaysFail] 1 "utf-8" ["a"]
      [[some "1"], [none]] (fun _ => false) []
      (fun df => ⟨"boom", rfl⟩)
  exact ⟨st, hok, hrows, hout⟩

/-- Claim C4 counterexample: with an always-failing transform on a one
batch input the output file is empty, not the header-only file the
claim promises. -/
theorem c4_counterexample :
    outputOf (process [alwaysFail] 1 "utf-8" (some (["a"], [[some "1"]]))
        (fun _ => false) []) = []
    ∧ outputOf (process [alwaysFail] 1 "utf-8" (some (["a"], [[some "1"]]))
        (fun _ => false) []) ≠ [headerLine ["a"]] := by
  have hc : chunksOf 1 [[(some "1" : Cell)]] = [[[some "1"]]] :=
    chunksOf_one_one _
  have h : outputOf (process [alwaysFail] 1 "utf-8"
      (some (["a"], [[some "1"]])) (fun _ => false) []) = [] := by
    simp [process, read_chunks, hc, pairFlags, runLoop, processChunk,
      apply_processing_funcs, alwaysFail, outputOf, openTruncate]
  refine ⟨h, ?_⟩
  rw [h]
  simp

/-- Claim C10: the header-written flag is true after a run exactly when
some batch was successfully written; with no successful batch the
output file stays empty (a transform-stage failure writes nothing);
when batches fail before the first success the single header line is
written together with that first successful batch, as the first line
of the file; and a non-empty output implies some batch reached the
write stage. -/
theorem c10_header_flag_semantics (funcs : List Transform) (C : Nat)
    (enc : String) (hdr : List String) (rows : List Row) (wf : Nat → Bool)
    (prior : List String) :
    ∃ st : RunState,
      process funcs C enc (some (hdr, rows)) wf prior = .ok st
      ∧ st.header_written =
          !(successDfs funcs (pairFlags wf 1 (read_chunks hdr rows C))).isEmpty
      ∧ (successDfs funcs (pairFlags wf 1 (read_chunks hdr rows C)) = [] →
          st.out = [])
      ∧ (∀ (d : DataFrame) (ds : List DataFrame),
          successDfs funcs (pairFlags wf 1 (read_chunks hdr rows C)) = d :: ds →
          st.out.head? = some (headerLine d.header))
      ∧ (st.out ≠ [] →
          ∃ cb ∈ pairFlags wf 1 (read_chunks hdr rows C),
            (transformOk funcs cb.1).isSome) := by
  obtain ⟨st, hok, -, -, -, hhw, hout, -⟩ :=
    process_some_spec funcs C enc hdr rows wf prior
  refine ⟨st, hok, hhw, ?_, ?_, ?_⟩
  · intro h
    rw [hout, h]
    rfl
  · intro d ds h
    rw [hout, h, renderAll_false_cons]
    rfl
  · intro hne
    apply successDfs_ne_nil_attempt funcs
    intro hnil
    rw [hout, hnil] at hne
    exact hne rfl

/-- Claim C10 witness: with a first batch that fails and a second that
succeeds, the header line is the first line of the output file. -/
theorem c10_witness :
    ∃ st : RunState,
      process [failOnNull] 1 "utf-8" (some (["a"], [[none], [some "x"]]))
        (fun _ => false) [] = .ok st
      ∧ st.out.head? = some (headerLine ["a"]) := by
  obtain ⟨st, hok, -, -, hcons, -⟩ :=
    c10_header_flag_semantics [failOnNull] 1 "utf-8" ["a"]
      [[none], [some "x"]] (fun _ => false) []
  refine ⟨st, hok, hcons (DataFrame.mk ["a"] [[some "x"]]) [] ?_⟩
  rw [read_chunks, chunksOf_one_two]
  rfl

end ChunkProc
